import Mathlib

/-! Shallow embedding of the gravity-transmitter-oracle batched mutation writer
    (pkg/database/writer/writer.go, current revision) together with the record
    decoder and the initialization logic, and a verification of the
    specification claims about them. -/

namespace GravityOracle

/-- A decoded Go scalar value, as produced by the record decoder and carried in
    bound-argument maps.  `vFloatBits` keeps the raw IEEE-754 bit pattern of a
    `math.Float64frombits` result; `vStrB` stands for `string(bytes)`;
    `vNil` models Go's untyped nil (used only as an unreachable default). -/
inductive GoValue where
  | vFloatBits (bits : Nat)
  | vInt (i : Int)
  | vUInt (n : Nat)
  | vInt8 (n : Nat)
  | vStr (s : String)
  | vStrB (bs : List Nat)
  | vBytes (bs : List Nat)
  | vNil
deriving DecidableEq, Repr

/-- The operation kind of a record (`record.Method`); `mOther` covers every
    enum value that is none of INSERT/UPDATE/DELETE. -/
inductive GoMethod where
  | mInsert
  | mUpdate
  | mDelete
  | mOther (tag : Nat)
deriving DecidableEq, Repr

/-- One mutation record as handed to `ProcessData`: table name, declared
    primary-key field name (empty when none), and the ordered fields with
    already-decoded values. -/
structure GoRecord where
  method : GoMethod
  table : String
  primaryKey : String
  fields : List (String × GoValue)
deriving DecidableEq, Repr

/-- A compiled command as enqueued on the `commands` channel (type DBCommand in
    the source): opaque upstream reference, originating record, SQL template and
    named bound arguments. -/
structure DBCommand where
  reference : Nat
  record : GoRecord
  queryStr : String
  args : List (String × GoValue)
deriving DecidableEq, Repr

/-! ### Record decoder (`GetValue`, writer.go lines 195-212) -/

/-- The wire type tag of a field value (transmitter.DataType); `other` covers
    BINARY and every unrecognized tag, all of which fall through the switch. -/
inductive GoDataType where
  | float64
  | int64
  | uint64
  | boolean
  | str
  | other (tag : Nat)
deriving DecidableEq, Repr

/-- A tagged wire value: type tag plus raw byte payload. -/
structure TmValue where
  ty : GoDataType
  bytes : List Nat
deriving DecidableEq, Repr

/-- Little-endian read of the first 8 bytes, `binary.LittleEndian.Uint64`.
    `none` models the Go runtime bounds-check abort (index out of range) that
    fires when fewer than 8 bytes are present. -/
def leUint64 (bs : List Nat) : Option Nat :=
  if bs.length < 8 then none
  else some ((bs.take 8).enum.foldl (fun acc p => acc + p.2 % 256 * 256 ^ p.1) 0)

/-- Reinterpret a 64-bit unsigned pattern as a Go int64 (two's complement). -/
def toInt64 (n : Nat) : Int :=
  if n < 2 ^ 63 then (n : Int) else (n : Int) - 2 ^ 64

/-- Faithful embedding of `Writer.GetValue`: decode a tagged wire value into a
    scalar.  `none` models a Go runtime panic (short payload on a fixed-width
    numeric tag, or an empty payload on the boolean tag). -/
def GetValue (v : TmValue) : Option GoValue :=
  match v.ty with
  | .float64 => (leUint64 v.bytes).map .vFloatBits
  | .int64 => (leUint64 v.bytes).map (fun n => .vInt (toInt64 n))
  | .uint64 => (leUint64 v.bytes).map .vUInt
  | .boolean => v.bytes.head?.map (fun b => .vInt8 (b % 2))
  | .str => some (.vStrB v.bytes)
  | .other _ => some (.vBytes v.bytes)

/-- The payload shapes on which the Go decoder does not index out of range:
    8 bytes for the fixed-width numeric tags, at least one byte for boolean. -/
def WellFormedPayload (v : TmValue) : Prop :=
  match v.ty with
  | .float64 | .int64 | .uint64 => 8 ≤ v.bytes.length
  | .boolean => 1 ≤ v.bytes.length
  | .str | .other _ => True

instance (v : TmValue) : Decidable (WellFormedPayload v) := by
  unfold WellFormedPayload
  match v.ty with
  | .float64 | .int64 | .uint64 | .boolean => exact inferInstance
  | .str | .other _ => exact inferInstance

/-! ### Statement compiler (`GetDefinition` and the per-method record
    functions, writer.go lines 704-884) -/

/-- One non-key column of a record definition (type ColumnDef); `value` mirrors
    the source, which stores the field name in the Value slot. -/
structure GoColumnDef where
  columnName : String
  bindingName : String
  value : String
deriving DecidableEq, Repr

/-- The compilation artifact of one record (type RecordDef). -/
structure GoRecordDef where
  hasPrimary : Bool
  primaryColumn : String
  values : List (String × GoValue)
  columnDefs : List GoColumnDef
deriving DecidableEq, Repr

/-- Go map store: update the binding in place when the key exists, append it
    otherwise. -/
def upsert (m : List (String × GoValue)) (k : String) (v : GoValue) :
    List (String × GoValue) :=
  if m.any (fun p => p.1 == k) then m.map (fun p => if p.1 == k then (k, v) else p)
  else m ++ [(k, v)]

/-- Go map lookup. -/
def mapGet (m : List (String × GoValue)) (k : String) : Option GoValue :=
  (m.find? (fun p => p.1 == k)).map (·.2)

/-- The field scan of `GetDefinition`: `n` is the running field index, used to
    generate `val_<n>` binding names; fields whose name equals the declared
    primary key are diverted into `primary_val`. -/
def getDefAux (pk : String) : Nat → List (String × GoValue) → GoRecordDef → GoRecordDef
  | _, [], rd => rd
  | n, f :: rest, rd =>
    if pk == f.1 then
      getDefAux pk (n + 1) rest
        { rd with values := upsert rd.values "primary_val" f.2,
                  hasPrimary := true, primaryColumn := f.1 }
    else
      getDefAux pk (n + 1) rest
        { rd with values := upsert rd.values ("val_" ++ toString n) f.2,
                  columnDefs := rd.columnDefs ++ [⟨f.1, "val_" ++ toString n, f.1⟩] }

/-- Faithful embedding of `Writer.GetDefinition`: scan the fields, then fail
    with the missing-primary-key error when a non-empty key name matched no
    field. -/
def GetDefinition (r : GoRecord) : Except String GoRecordDef :=
  let rd := getDefAux r.primaryKey 0 r.fields ⟨false, "", [], []⟩
  if 0 < r.primaryKey.length ∧ rd.hasPrimary = false then
    .error "Not found primary key"
  else .ok rd

/-- SET clause of the update template: quoted column = :binding, joined by
    commas. -/
def updateSetClause (defs : List GoColumnDef) : String :=
  String.intercalate ","
    (defs.map (fun d => "\"" ++ d.columnName ++ "\" = :" ++ d.bindingName))

/-- The update SQL string (`UpdateTemplate` instantiated by `update`). -/
def updateQueryStr (table : String) (rd : GoRecordDef) : String :=
  "UPDATE " ++ table ++ " SET " ++ updateSetClause rd.columnDefs ++
    " WHERE " ++ rd.primaryColumn ++ " = :primary_val"

/-- The insert SQL string (`InsertTemplate` instantiated by `insert`): primary
    column first when present, then the non-key columns; column names quoted,
    the table name spliced in unquoted. -/
def insertQueryStr (table : String) (rd : GoRecordDef) : String :=
  let colNames :=
    (if rd.hasPrimary then ["\"" ++ rd.primaryColumn ++ "\""] else []) ++
      rd.columnDefs.map (fun d => "\"" ++ d.columnName ++ "\"")
  let valNames :=
    (if rd.hasPrimary then [":primary_val"] else []) ++
      rd.columnDefs.map (fun d => ":" ++ d.bindingName)
  "INSERT INTO " ++ table ++ " (" ++ String.intercalate "," colNames ++
    ") VALUES (" ++ String.intercalate "," valNames ++ ")"

/-- The delete SQL string (`DeleteTemplate` instantiated in `DeleteRecord`). -/
def deleteQueryStr (table : String) (fieldName : String) : String :=
  "DELETE FROM " ++ table ++ " WHERE " ++ fieldName ++ " = :primary_val"

/-- Faithful embedding of `Writer.InsertRecord`; the returned list holds the
    commands sent to the `commands` channel. -/
def InsertRecord (ref : Nat) (r : GoRecord) : Except String (List DBCommand) :=
  match GetDefinition r with
  | .error e => .error e
  | .ok rd => .ok [⟨ref, r, insertQueryStr r.table rd, rd.values⟩]

/-- Faithful embedding of `Writer.UpdateRecord`: an update without a resolved
    primary key is silently ignored. -/
def UpdateRecord (ref : Nat) (r : GoRecord) : Except String (List DBCommand) :=
  match GetDefinition r with
  | .error e => .error e
  | .ok rd =>
    if rd.hasPrimary = false then .ok []
    else .ok [⟨ref, r, updateQueryStr r.table rd, rd.values⟩]

/-- The field loop of `DeleteRecord`: enqueue one command for the first field
    whose name equals the declared primary key, then break. -/
def deleteLoop (ref : Nat) (r : GoRecord) : List (String × GoValue) → List DBCommand
  | [] => []
  | f :: rest =>
    if r.primaryKey == f.1 then
      [⟨ref, r, deleteQueryStr r.table f.1, [("primary_val", f.2)]⟩]
    else deleteLoop ref r rest

/-- Faithful embedding of `Writer.DeleteRecord`: an empty declared key name is
    a no-op, and a non-matching key name silently produces nothing. -/
def DeleteRecord (ref : Nat) (r : GoRecord) : Except String (List DBCommand) :=
  if r.primaryKey = "" then .ok []
  else .ok (deleteLoop ref r r.fields)

/-- Faithful embedding of `Writer.ProcessData` (the `submit` entry point):
    dispatch on the method; any other method falls through and returns nil. -/
def ProcessData (ref : Nat) (r : GoRecord) : Except String (List DBCommand) :=
  match r.method with
  | .mDelete => DeleteRecord ref r
  | .mUpdate => UpdateRecord ref r
  | .mInsert => InsertRecord ref r
  | .mOther _ => .ok []

/-! ### Batch applier (`chunkHandler`, `processData` and the merge helpers,
    writer.go lines 504-670) -/

/-- Whether `pat` is an initial segment of `s` (on character lists). -/
def charsLeadWith : List Char → List Char → Bool
  | [], _ => true
  | _ :: _, [] => false
  | p :: ps, c :: cs => p == c && charsLeadWith ps cs

/-- Split a character list at the first occurrence of `pat`, returning the
    part before it and the part after it. -/
def findSplit (pat : List Char) : List Char → Option (List Char × List Char)
  | [] => if pat.isEmpty then some ([], []) else none
  | c :: cs =>
    if charsLeadWith pat (c :: cs) then some ([], (c :: cs).drop pat.length)
    else
      match findSplit pat cs with
      | some (pre, post) => some (c :: pre, post)
      | none => none

/-- Go `strings.Replace(s, pat, rep, 1)`: replace the first occurrence of the
    pattern, leaving the string unchanged when the pattern does not occur. -/
def replaceFirst (s pat rep : String) : String :=
  match findSplit pat.data s.data with
  | some (pre, post) => String.mk (pre ++ rep.data ++ post)
  | none => s

/-- Whether `pat` occurs in `s` (Go `strings.Index(s, pat) != -1`). -/
def containsSub (s pat : String) : Bool :=
  (findSplit pat.data s.data).isSome

/-- Characters sqlx accepts inside a named-parameter name. -/
def isBindChar (c : Char) : Bool :=
  c.isAlphanum || c == '_'

/-- The name pieces following each `:` in a character list. -/
def extractNamesChars : List Char → List String
  | [] => []
  | c :: cs =>
    if c == ':' then String.mk (cs.takeWhile isBindChar) :: extractNamesChars cs
    else extractNamesChars cs

/-- The named parameters of a query in order of appearance (what sqlx's
    NAMED bindtype, used for the oci8 driver, binds positionally). -/
def extractBindNames (q : String) : List String :=
  extractNamesChars q.data

/-- sqlx `db.BindNamed` under the NAMED bindtype: the query text keeps its
    named placeholders and the argument list carries the bound values in
    placeholder order. -/
def bindNamed (q : String) (args : List (String × GoValue)) :
    String × List GoValue :=
  (q, (extractBindNames q).map (fun n => (mapGet args n).getD .vNil))

/-- Replace the last element of a list (Go `querys[len(querys)-1] = s`). -/
def setLast (l : List String) (s : String) : List String :=
  l.dropLast ++ [s]

/-- The mutable state threaded through one `processData` attempt:
    `tmpQueryStr`, the accumulated merged query strings, and the accumulated
    positional arguments. -/
structure BatchState where
  tmp : String
  querys : List String
  args : List GoValue
deriving DecidableEq, Repr

/-- Faithful embedding of `Writer.processInsertData` together with its helper
    `appendInsertData`: a new template opens an `INSERT ALL ` statement, a
    repeated template appends its stripped `INTO ... VALUES ...` clause to the
    last statement. -/
def processInsertData (st : BatchState) (c : DBCommand) : BatchState :=
  if st.tmp ≠ c.queryStr then
    let b := bindNamed c.queryStr c.args
    { tmp := c.queryStr,
      querys := st.querys ++ [replaceFirst b.1 "INSERT " "INSERT ALL "],
      args := st.args ++ b.2 }
  else
    let b := bindNamed c.queryStr c.args
    let stripped := replaceFirst b.1 "INSERT " ""
    { st with
      querys := setLast st.querys (st.querys.getLastD "" ++ " " ++ stripped),
      args := st.args ++ b.2 }

/-- Faithful embedding of `Writer.appendUpdateData` (also used for deletes):
    rewrite the trailing equality predicate of the last statement into an IN
    list by text substitution, and append only the last bound argument (the
    primary-key value) of the merged command. -/
def appendUpdateData (st : BatchState) (c : DBCommand) : BatchState :=
  let b := bindNamed c.queryStr c.args
  let q0 := st.querys.getLastD "" ++ ";"
  let q1 :=
    if containsSub q0 ");" = false then
      replaceFirst q0 " = :primary_val;" " IN (:primary_val, :primary_val)"
    else
      replaceFirst q0 ");" ",:primary_val)"
  { st with querys := setLast st.querys q1,
            args := st.args ++ [b.2.getLastD .vNil] }

/-- Faithful embedding of `Writer.processUpdateData`. -/
def processUpdateData (st : BatchState) (c : DBCommand) : BatchState :=
  if st.tmp ≠ c.queryStr then
    let b := bindNamed c.queryStr c.args
    { tmp := c.queryStr, querys := st.querys ++ [b.1], args := st.args ++ b.2 }
  else
    appendUpdateData st c

/-- Faithful embedding of `Writer.processDeleteData` (its append helper
    delegates to `appendUpdateData`). -/
def processDeleteData (st : BatchState) (c : DBCommand) : BatchState :=
  if st.tmp ≠ c.queryStr then
    let b := bindNamed c.queryStr c.args
    { tmp := c.queryStr, querys := st.querys ++ [b.1], args := st.args ++ b.2 }
  else
    appendUpdateData st c

/-- One iteration of the command loop inside `processData`; when the last
    command of the batch is an insert, ` SELECT * FROM DUAL` is appended to
    close the multi-table insert. -/
def buildBatchStep (isLast : Bool) (st : BatchState) (c : DBCommand) : BatchState :=
  match c.record.method with
  | .mInsert =>
    let st' := processInsertData st c
    if isLast then
      { st' with querys := setLast st'.querys (st'.querys.getLastD "" ++ " SELECT * FROM DUAL") }
    else st'
  | .mUpdate => processUpdateData st c
  | .mDelete => processDeleteData st c
  | .mOther _ => st

/-- The command loop of `processData` over the remaining commands. -/
def buildBatchAux : BatchState → List DBCommand → BatchState
  | st, [] => st
  | st, [c] => buildBatchStep true st c
  | st, c :: rest => buildBatchAux (buildBatchStep false st c) rest

/-- One attempt of `processData` on a command batch: `tmpQueryStr` is reset to
    the empty string and the merged query strings and arguments are recomputed
    from scratch. -/
def buildBatch (cmds : List DBCommand) : BatchState :=
  buildBatchAux ⟨"", [], []⟩ cmds

/-- The single query string passed to `db.Exec` in one attempt
    (`strings.Join(querys, ";")`). -/
def batchQuery (cmds : List DBCommand) : String :=
  String.intercalate ";" (buildBatch cmds).querys

/-- The positional arguments passed to `db.Exec` in one attempt. -/
def batchArgs (cmds : List DBCommand) : List GoValue :=
  (buildBatch cmds).args

/-- Observable actions of the applier: one atomic `db.Exec` of the joined
    batch, the fixed retry backoff sleep, and one completion-handler call. -/
inductive WEvent where
  | exec (query : String) (args : List GoValue)
  | backoffSeconds (n : Nat)
  | completed (ref : Nat)
deriving DecidableEq, Repr

/-- The retry loop of `Writer.processData`: `ok i` tells whether the `db.Exec`
    of attempt `i` succeeds; on failure the loop sleeps five seconds and
    recomputes the whole batch from the beginning; on success it invokes the
    completion handler once per command, in order.  `none` means the loop is
    still retrying when the fuel runs out — `processData` itself never returns
    an error. -/
def processDataAttempts :
    Nat → List DBCommand → (Nat → Bool) → Nat → Option (List WEvent)
  | 0, _, _, _ => none
  | fuel + 1, cmds, ok, i =>
    let ev := WEvent.exec (batchQuery cmds) (batchArgs cmds)
    if ok i then
      some (ev :: cmds.map (fun c => .completed c.reference))
    else
      (processDataAttempts fuel cmds ok (i + 1)).map
        (fun evs => ev :: .backoffSeconds 5 :: evs)

/-- The grouping loop of `Writer.chunkHandler`: `cur` is `handleQueryStr`, and
    `acc` the pending run of commands sharing that query string; a command with
    a different query string flushes the pending run to `processData`. -/
def chunkGroupsAux : List DBCommand → String → List DBCommand → List (List DBCommand)
  | [], _, acc => if acc.isEmpty then [] else [acc]
  | c :: rest, cur, acc =>
    if c.queryStr == cur then chunkGroupsAux rest cur (acc ++ [c])
    else acc :: chunkGroupsAux rest c.queryStr [c]

/-- The maximal runs of identical query strings into which `chunkHandler`
    splits one chunk; each run is handed to `processData` separately, in
    order. -/
def chunkGroups : List DBCommand → List (List DBCommand)
  | [] => []
  | c :: rest => chunkGroupsAux rest c.queryStr [c]

/-- Sequential execution of the runs of one chunk: group `idx` retries with its
    own success oracle `ok idx`; the chunk's trace is the concatenation of the
    group traces. -/
def runGroups (ok : Nat → Nat → Bool) (fuel : Nat) :
    Nat → List (List DBCommand) → Option (List WEvent)
  | _, [] => some []
  | idx, g :: gs =>
    match processDataAttempts fuel g (ok idx) 0 with
    | none => none
    | some evs => (runGroups ok fuel (idx + 1) gs).map (fun rest => evs ++ rest)

/-- Faithful model of one `chunkHandler` invocation on a chunk delivered by the
    buffered-input batcher. -/
def chunkHandlerRun (chunk : List DBCommand) (ok : Nat → Nat → Bool)
    (fuel : Nat) : Option (List WEvent) :=
  runGroups ok fuel 0 (chunkGroups chunk)

/-- The references passed to the completion handler, in emission order. -/
def completedRefs (evs : List WEvent) : List Nat :=
  evs.filterMap (fun e => match e with | .completed r => some r | _ => none)

/-- The `db.Exec` calls of a trace, in order. -/
def execEvents (evs : List WEvent) : List WEvent :=
  evs.filter (fun e => match e with | .exec _ _ => true | _ => false)

/-! ### Row-level semantics for the merge-equivalence claim

    A database maps a table name to its list of rows, a row maps a column name
    to an optional value.  The unmerged side interprets each command's own
    statement (the spec's "applying every Command individually"); the merged
    side interprets the coalesced statements that `processData` builds per run:
    a multi-table `INSERT ALL` inserts every bound row, a coalesced
    UPDATE/DELETE applies its single SET clause (the first command's bound
    values) or its deletion to every key accumulated in the IN list. -/

/-- A row: column name to value. -/
def DbRow : Type := String → Option GoValue

/-- A database: table name to rows. -/
def Db : Type := String → List DbRow

/-- Overwrite one column of a row. -/
def setCol (row : DbRow) (c : String) (v : GoValue) : DbRow :=
  fun c' => if c' = c then some v else row c'

/-- Apply a SET clause (assignments in order, later ones win). -/
def applyAsg (row : DbRow) (asg : List (String × GoValue)) : DbRow :=
  asg.foldl (fun r p => setCol r p.1 p.2) row

/-- Replace the rows of one table. -/
def dbSet (db : Db) (t : String) (rows : List DbRow) : Db :=
  fun t' => if t' = t then rows else db t'

/-- The non-key assignments a record's statement binds: the fields whose name
    differs from the declared primary key, in original order. -/
def recAssignments (r : GoRecord) : List (String × GoValue) :=
  r.fields.filter (fun f => !(r.primaryKey == f.1))

/-- The primary-key value an update or insert statement binds: the last field
    matching the declared key name (`GetDefinition` overwrites `primary_val`
    per matching field). -/
def recPkValLast (r : GoRecord) : Option GoValue :=
  ((r.fields.filter (fun f => r.primaryKey == f.1)).getLast?).map (·.2)

/-- The primary-key value a delete statement binds: the first matching field
    (`DeleteRecord` breaks at the first match). -/
def recPkValFirst (r : GoRecord) : Option GoValue :=
  (r.fields.find? (fun f => r.primaryKey == f.1)).map (·.2)

/-- The row inserted for a record: the primary-key column (when bound) and the
    non-key columns, everything else absent. -/
def rowOfInsert (r : GoRecord) : DbRow :=
  let base : DbRow := fun _ => none
  let base :=
    match recPkValLast r with
    | some v => setCol base r.primaryKey v
    | none => base
  applyAsg base (recAssignments r)

/-- Effect of one INSERT statement: append the bound row. -/
def insertSem (db : Db) (r : GoRecord) : Db :=
  dbSet db r.table (db r.table ++ [rowOfInsert r])

/-- Effect of one UPDATE statement: apply the SET clause to every row whose
    primary-key column equals the bound key. -/
def updateSem (db : Db) (r : GoRecord) : Db :=
  match recPkValLast r with
  | some pk =>
    dbSet db r.table ((db r.table).map (fun row =>
      if row r.primaryKey = some pk then applyAsg row (recAssignments r) else row))
  | none => db

/-- Effect of one DELETE statement: drop every row whose primary-key column
    equals the bound key. -/
def deleteSem (db : Db) (r : GoRecord) : Db :=
  match recPkValFirst r with
  | some pk =>
    dbSet db r.table ((db r.table).filter (fun row =>
      decide (¬ row r.primaryKey = some pk)))
  | none => db

/-- Applying one command individually, without merging. -/
def applyCmdRecord (db : Db) (c : DBCommand) : Db :=
  match c.record.method with
  | .mInsert => insertSem db c.record
  | .mUpdate => updateSem db c.record
  | .mDelete => deleteSem db c.record
  | .mOther _ => db

/-- Applying every command of a chunk individually, in order (the unmerged
    reference behavior of the specification). -/
def unmergedApply (db : Db) (cmds : List DBCommand) : Db :=
  cmds.foldl applyCmdRecord db

/-- The keys accumulated in a merged UPDATE's IN list, one per command. -/
def updatePks (g : List DBCommand) : List GoValue :=
  g.filterMap (fun c => recPkValLast c.record)

/-- The keys accumulated in a merged DELETE's IN list, one per command. -/
def deletePks (g : List DBCommand) : List GoValue :=
  g.filterMap (fun c => recPkValFirst c.record)

/-- Effect of the one merged statement `processData` builds for a run of
    same-template commands: inserts insert every bound row; a merged update
    applies the first command's SET values to every key of the IN list; a
    merged delete drops every key of the IN list. -/
def applyMergedGroup (db : Db) (g : List DBCommand) : Db :=
  match g with
  | [] => db
  | c :: _ =>
    match c.record.method with
    | .mInsert => g.foldl (fun db c' => insertSem db c'.record) db
    | .mUpdate =>
      dbSet db c.record.table ((db c.record.table).map (fun row =>
        if row c.record.primaryKey ∈ (updatePks g).map some then
          applyAsg row (recAssignments c.record)
        else row))
    | .mDelete =>
      dbSet db c.record.table ((db c.record.table).filter (fun row =>
        decide (¬ row c.record.primaryKey ∈ (deletePks g).map some)))
    | .mOther _ => db

/-- Applying a chunk with merging enabled: each maximal same-template run is
    applied as its one merged statement, runs in order. -/
def mergedApply (db : Db) (chunk : List DBCommand) : Db :=
  (chunkGroups chunk).foldl applyMergedGroup db

/-- Uniformity of a same-template run: all members agree on method, table and
    primary-key name (which identical templates give for sane identifiers),
    and update runs additionally bind identical SET values. -/
def GroupUniform (g : List DBCommand) : Prop :=
  ∀ c ∈ g, ∀ c' ∈ g,
    c.record.method = c'.record.method ∧
    c.record.table = c'.record.table ∧
    c.record.primaryKey = c'.record.primaryKey ∧
    (c.record.method = .mUpdate → recAssignments c.record = recAssignments c'.record)

instance (g : List DBCommand) : Decidable (GroupUniform g) := by
  unfold GroupUniform
  exact inferInstance

/-- Build a row from an association list (for concrete databases). -/
def mkRow (l : List (String × GoValue)) : DbRow :=
  fun c => (l.find? (fun p => p.1 == c)).map (·.2)

/-! ### The mutation queue (`commands` channel, writer.go line 420) -/

/-- The capacity of the `commands` channel allocated by `NewWriter`. -/
def writerCommandsCap : Nat := 204800

/-- A Go buffered channel: pending elements in arrival order plus the fixed
    capacity. -/
structure GoChan (α : Type) where
  buf : List α
  cap : Nat
deriving Repr

/-- Send on a buffered channel: append when a slot is free; `none` means the
    sender blocks (the element is not dropped and the buffer is unchanged). -/
def chanSend (c : GoChan α) (a : α) : Option (GoChan α) :=
  if c.buf.length < c.cap then some ⟨c.buf ++ [a], c.cap⟩ else none

/-- Receive on a buffered channel: take the oldest pending element. -/
def chanRecv (c : GoChan α) : Option (α × GoChan α) :=
  match c.buf with
  | [] => none
  | a :: rest => some (a, ⟨rest, c.cap⟩)

/-- Send a whole list, failing if any send would block. -/
def chanSendList (c : GoChan α) : List α → Option (GoChan α)
  | [] => some c
  | a :: rest => (chanSend c a).bind (fun c' => chanSendList c' rest)

/-- Drain a channel completely, in receive order. -/
def chanDrain (c : GoChan α) : List α := c.buf

/-- The `commands` channel as allocated by `NewWriter`. -/
def newWriterCommands : GoChan DBCommand := ⟨[], writerCommandsCap⟩

/-! ### Initialization (`Writer.Init`, writer.go lines 437-502) -/

/-- The configuration keys `Init` consults for the rejected-configuration
    check. -/
structure WriterConfig where
  serviceName : String
  sid : String
deriving DecidableEq, Repr

/-- What one `Init` call did: whether the only-one-of error was logged, whether
    the database handle was opened, whether the session formats were set,
    whether the pipeline goroutine was started, and the error value returned to
    the caller. -/
structure InitOutcome where
  loggedConfigError : Bool
  dbOpened : Bool
  sessionFormatSet : Bool
  pipelineStarted : Bool
  returnedError : Option String
deriving DecidableEq, Repr

/-- Faithful embedding of the control flow of `Writer.Init`; `openErr` and
    `alterErr` stand for the outcomes of `sqlx.Open` and of
    `setTimeFormatOnSession`.  When both service name and sid are set, the
    condition is logged and the function returns nil immediately. -/
def InitGo (cfg : WriterConfig) (openErr alterErr : Option String) : InitOutcome :=
  if cfg.serviceName ≠ "" ∧ cfg.sid ≠ "" then
    ⟨true, false, false, false, none⟩
  else
    match openErr with
    | some e => ⟨false, false, false, false, some e⟩
    | none =>
      match alterErr with
      | some e => ⟨false, true, false, false, some e⟩
      | none => ⟨false, true, true, true, none⟩

/-! ### Helper lemmas about the statement compiler -/

theorem getDefAux_hasPrimary_nomatch (pk : String) :
    ∀ (fields : List (String × GoValue)) (n : Nat) (rd : GoRecordDef),
      (∀ f ∈ fields, pk ≠ f.1) →
      (getDefAux pk n fields rd).hasPrimary = rd.hasPrimary := by
  intro fields
  induction fields with
  | nil => intro n rd _; rfl
  | cons f rest ih =>
    intro n rd h
    have hne : (pk == f.1) = false :=
      beq_eq_false_iff_ne.mpr (h f (List.mem_cons_self f rest))
    simp only [getDefAux, hne, Bool.false_eq_true, if_false]
    exact ih (n + 1) _ (fun g hg => h g (List.mem_cons_of_mem f hg))

theorem getDefAux_columnDefs (pk : String) :
    ∀ (fields : List (String × GoValue)) (n : Nat) (rd : GoRecordDef),
      (getDefAux pk n fields rd).columnDefs =
        rd.columnDefs ++
          ((List.enumFrom n fields).filter (fun p => !(pk == p.2.1))).map
            (fun p => ⟨p.2.1, "val_" ++ toString p.1, p.2.1⟩) := by
  intro fields
  induction fields with
  | nil => intro n rd; show rd.columnDefs = _; simp [List.enumFrom]
  | cons f rest ih =>
    intro n rd
    by_cases hmatch : pk == f.1
    · simp only [getDefAux, hmatch, if_true]
      rw [ih]
      simp [List.enumFrom, hmatch]
    · simp only [getDefAux, hmatch, Bool.false_eq_true, if_false]
      rw [ih]
      simp only [List.enumFrom, List.filter_cons]
      simp [hmatch, List.append_assoc]

theorem string_eq_empty_of_length_eq_zero {s : String} (h : s.length = 0) : s = "" := by
  cases s with
  | mk data =>
    cases data with
    | nil => rfl
    | cons c cs => simp [String.length] at h

theorem GetDefinition_nomatch_error (r : GoRecord) (hpk : r.primaryKey ≠ "")
    (h : ∀ f ∈ r.fields, r.primaryKey ≠ f.1) :
    GetDefinition r = .error "Not found primary key" := by
  have h1 : (getDefAux r.primaryKey 0 r.fields ⟨false, "", [], []⟩).hasPrimary = false :=
    getDefAux_hasPrimary_nomatch r.primaryKey r.fields 0 _ h
  have h2 : 0 < r.primaryKey.length :=
    Nat.pos_of_ne_zero (fun h0 => hpk (string_eq_empty_of_length_eq_zero h0))
  simp [GetDefinition, h1, h2]

theorem deleteLoop_nomatch (ref : Nat) (r : GoRecord) :
    ∀ fields, (∀ f ∈ fields, r.primaryKey ≠ f.1) → deleteLoop ref r fields = [] := by
  intro fields
  induction fields with
  | nil => intro _; rfl
  | cons f rest ih =>
    intro h
    have hne : (r.primaryKey == f.1) = false :=
      beq_eq_false_iff_ne.mpr (h f (List.mem_cons_self f rest))
    simp only [deleteLoop, hne, Bool.false_eq_true, if_false]
    exact ih (fun g hg => h g (List.mem_cons_of_mem f hg))

/-! ### Claim C4 -/

/-- The Delete record of the C4 counterexample: a non-empty declared key
    matching none of its fields. -/
def c4DelRecord : GoRecord := ⟨.mDelete, "T", "ID", [("NAME", .vStr "x")]⟩

/-- C4 counterexample: for a Delete record whose non-empty declared primary
    key matches no field, `ProcessData` returns success with nothing enqueued
    instead of the MissingPrimaryKey error the claim requires for every
    operation kind. -/
theorem c4Counterexample :
    ProcessData 0 c4DelRecord = .ok [] ∧
    ProcessData 0 c4DelRecord ≠ .error "Not found primary key" :=
  ⟨rfl, fun h =>
    Except.noConfusion ((rfl : ProcessData 0 c4DelRecord = .ok []).symm.trans h)⟩

/-- C4 (amended): a Record with a non-empty declared primary key matching none
    of its fields makes `ProcessData` return the MissingPrimaryKey error with
    nothing enqueued when the operation is Insert or Update, while a Delete
    record returns success with nothing enqueued. -/
theorem c4MissingPrimaryKey (ref : Nat) (r : GoRecord)
    (hpk : r.primaryKey ≠ "") (h : ∀ f ∈ r.fields, r.primaryKey ≠ f.1) :
    ((r.method = .mInsert ∨ r.method = .mUpdate) →
      ProcessData ref r = .error "Not found primary key") ∧
    (r.method = .mDelete → ProcessData ref r = .ok []) := by
  have herr := GetDefinition_nomatch_error r hpk h
  refine ⟨fun hm => ?_, fun hm => ?_⟩
  · rcases hm with hm | hm <;>
      · unfold ProcessData
        rw [hm]
        simp [InsertRecord, UpdateRecord, herr]
  · unfold ProcessData
    rw [hm]
    unfold DeleteRecord
    rw [if_neg hpk, deleteLoop_nomatch ref r r.fields h]

/-- An Insert record with a non-matching declared primary key, for the C4
    witness. -/
def c4InsRecord : GoRecord := ⟨.mInsert, "T", "ID", [("NAME", .vStr "x")]⟩

/-- C4 witness. -/
theorem c4MissingPrimaryKeyWitness :
    ProcessData 0 c4InsRecord = .error "Not found primary key" :=
  (c4MissingPrimaryKey 0 c4InsRecord (by decide) (by decide)).1 (Or.inl rfl)

/-! ### Claim C5 -/

/-- The Insert scenario record of the specification: table CUSTOMER, primary
    field ID = 1, field NAME = "Alice". -/
def custRecord : GoRecord :=
  ⟨.mInsert, "CUSTOMER", "ID", [("ID", .vInt 1), ("NAME", .vStr "Alice")]⟩

/-- The record definition compiled from `custRecord`. -/
def custRd : GoRecordDef :=
  ⟨true, "ID", [("primary_val", .vInt 1), ("val_1", .vStr "Alice")],
    [⟨"NAME", "val_1", "NAME"⟩]⟩

/-- C5 counterexample: the scenario record compiles with the table identifier
    spliced in unquoted, so the compiled template differs from the claim's
    expected `INSERT INTO "CUSTOMER" ...` text. -/
theorem c5Counterexample :
    ProcessData 7 custRecord =
      .ok [⟨7, custRecord,
        "INSERT INTO CUSTOMER (\"ID\",\"NAME\") VALUES (:primary_val,:val_1)",
        [("primary_val", .vInt 1), ("val_1", .vStr "Alice")]⟩] ∧
    "INSERT INTO CUSTOMER (\"ID\",\"NAME\") VALUES (:primary_val,:val_1)" ≠
      "INSERT INTO \"CUSTOMER\" (\"ID\",\"NAME\") VALUES (:primary_val,:val_1)" :=
  ⟨rfl, by decide⟩

/-- C5 (amended): for every Insert record with a resolved primary key the
    compiled template quotes the column identifiers but splices the table name
    in unquoted, lists the primary-key column first and the non-key columns in
    original field order, and binds `:primary_val` followed by `:val_<i>` with
    `<i>` the field's index in the original record; the scenario record
    compiles to exactly `INSERT INTO CUSTOMER ("ID","NAME") VALUES
    (:primary_val,:val_1)` with args primary_val = 1, val_1 = "Alice". -/
theorem c5InsertCompile :
    (∀ (ref : Nat) (r : GoRecord) (rd : GoRecordDef),
      r.method = .mInsert → GetDefinition r = .ok rd → rd.hasPrimary = true →
      ProcessData ref r = .ok [⟨ref, r, insertQueryStr r.table rd, rd.values⟩] ∧
      rd.columnDefs =
        (r.fields.enum.filter (fun p => !(r.primaryKey == p.2.1))).map
          (fun p => ⟨p.2.1, "val_" ++ toString p.1, p.2.1⟩) ∧
      insertQueryStr r.table rd =
        "INSERT INTO " ++ r.table ++ " (" ++
          String.intercalate ","
            (("\"" ++ rd.primaryColumn ++ "\"") ::
              rd.columnDefs.map (fun d => "\"" ++ d.columnName ++ "\"")) ++
          ") VALUES (" ++
          String.intercalate ","
            (":primary_val" :: rd.columnDefs.map (fun d => ":" ++ d.bindingName)) ++
          ")") ∧
    ProcessData 7 custRecord =
      .ok [⟨7, custRecord,
        "INSERT INTO CUSTOMER (\"ID\",\"NAME\") VALUES (:primary_val,:val_1)",
        [("primary_val", .vInt 1), ("val_1", .vStr "Alice")]⟩] := by
  refine ⟨fun ref r rd hm hdef hp => ⟨?_, ?_, ?_⟩, rfl⟩
  · unfold ProcessData
    rw [hm]
    simp [InsertRecord, hdef]
  · have hcd := getDefAux_columnDefs r.primaryKey r.fields 0 ⟨false, "", [], []⟩
    have : GetDefinition r = .ok rd := hdef
    unfold GetDefinition at this
    by_cases hc : 0 < r.primaryKey.length ∧
        (getDefAux r.primaryKey 0 r.fields ⟨false, "", [], []⟩).hasPrimary = false
    · simp [hc] at this
    · simp only [if_neg hc] at this
      cases this
      simpa [List.enum] using hcd
  · simp [insertQueryStr, hp]

/-- C5 witness. -/
theorem c5InsertCompileWitness :
    ProcessData 7 custRecord =
      .ok [⟨7, custRecord, insertQueryStr custRecord.table custRd, custRd.values⟩] ∧
    custRd.columnDefs =
      (custRecord.fields.enum.filter (fun p => !(custRecord.primaryKey == p.2.1))).map
        (fun p => ⟨p.2.1, "val_" ++ toString p.1, p.2.1⟩) ∧
    insertQueryStr custRecord.table custRd =
      "INSERT INTO " ++ custRecord.table ++ " (" ++
        String.intercalate ","
          (("\"" ++ custRd.primaryColumn ++ "\"") ::
            custRd.columnDefs.map (fun d => "\"" ++ d.columnName ++ "\"")) ++
        ") VALUES (" ++
        String.intercalate ","
          (":primary_val" :: custRd.columnDefs.map (fun d => ":" ++ d.bindingName)) ++
        ")" :=
  c5InsertCompile.1 7 custRecord custRd rfl rfl rfl

/-! ### Claim C6 -/

/-- The Update record of the C6 counterexample: empty declared key name
    together with a field whose name is also empty. -/
def c6Record : GoRecord := ⟨.mUpdate, "T", "", [("", .vInt 7)]⟩

/-- C6 counterexample: an Update record with an empty declared key name whose
    field list contains an empty-named field resolves that field as the
    primary key, so a Command is enqueued — the claim's "no Command is ever
    produced" fails. -/
theorem c6Counterexample :
    ProcessData 0 c6Record =
      .ok [⟨0, c6Record, "UPDATE T SET  WHERE  = :primary_val",
        [("primary_val", .vInt 7)]⟩] ∧
    ProcessData 0 c6Record ≠ .ok [] :=
  ⟨rfl, by intro h; rw [show ProcessData 0 c6Record =
      .ok [⟨0, c6Record, "UPDATE T SET  WHERE  = :primary_val",
        [("primary_val", .vInt 7)]⟩] from rfl] at h; simp at h⟩

/-- C6 (amended): an Update record with an empty declared key name none of
    whose fields has an empty name, and a Delete record with an empty declared
    key name, are silently dropped: `ProcessData` returns success and no
    Command is produced (hence the completion handler can never fire for
    them). -/
theorem c6SilentDrop (ref : Nat) (r : GoRecord) :
    (r.method = .mUpdate → r.primaryKey = "" → (∀ f ∈ r.fields, f.1 ≠ "") →
      ProcessData ref r = .ok []) ∧
    (r.method = .mDelete → r.primaryKey = "" → ProcessData ref r = .ok []) := by
  refine ⟨fun hm hpk hfields => ?_, fun hm hpk => ?_⟩
  · have hprim : (getDefAux r.primaryKey 0 r.fields ⟨false, "", [], []⟩).hasPrimary = false := by
      refine getDefAux_hasPrimary_nomatch r.primaryKey r.fields 0 _ ?_
      intro f hf
      rw [hpk]
      exact fun he => hfields f hf he.symm
    have hdef : GetDefinition r = .ok (getDefAux r.primaryKey 0 r.fields ⟨false, "", [], []⟩) := by
      unfold GetDefinition
      rw [if_neg]
      intro hc
      rw [hpk] at hc
      simp at hc
    unfold ProcessData
    rw [hm]
    simp [UpdateRecord, hdef, hprim]
  · unfold ProcessData
    rw [hm]
    simp [DeleteRecord, hpk]

/-- A Delete record with an empty declared key name, for the C6 witness. -/
def c6DelRecord : GoRecord := ⟨.mDelete, "T", "", [("A", .vInt 1)]⟩

/-- C6 witness. -/
theorem c6SilentDropWitness : ProcessData 5 c6DelRecord = .ok [] :=
  (c6SilentDrop 5 c6DelRecord).2 rfl rfl

/-! ### Claim C7 -/

/-- C7 counterexample: the decoder aborts (models a Go index-out-of-range
    panic) on an INT64 value with an empty payload and on a BOOLEAN value with
    an empty payload, so decoding is not total over all byte payloads. -/
theorem c7Counterexample :
    GetValue ⟨.int64, []⟩ = none ∧ GetValue ⟨.boolean, []⟩ = none :=
  ⟨rfl, rfl⟩

/-- C7 (amended): an unrecognized type tag returns the raw bytes unchanged for
    every payload, and on well-formed payloads (8 bytes for the fixed-width
    numeric tags, at least one byte for boolean) decoding always succeeds. -/
theorem c7DecodeTotality :
    (∀ (tag : Nat) (bs : List Nat), GetValue ⟨.other tag, bs⟩ = some (.vBytes bs)) ∧
    (∀ v : TmValue, WellFormedPayload v → (GetValue v).isSome = true) := by
  refine ⟨fun tag bs => rfl, fun v hwf => ?_⟩
  obtain ⟨ty, bytes⟩ := v
  cases ty with
  | float64 | int64 | uint64 =>
    simp only [WellFormedPayload] at hwf
    simp [GetValue, leUint64, Nat.not_lt.mpr hwf]
  | boolean =>
    simp only [WellFormedPayload] at hwf
    cases bytes with
    | nil => simp at hwf
    | cons b rest => simp [GetValue]
  | str => rfl
  | other tag => rfl

/-- C7 witness. -/
theorem c7DecodeTotalityWitness :
    (GetValue ⟨.int64, [255, 255, 255, 255, 255, 255, 255, 255]⟩).isSome = true :=
  c7DecodeTotality.2 ⟨.int64, [255, 255, 255, 255, 255, 255, 255, 255]⟩ (by decide)

/-! ### Claim C9 -/

/-- A configuration with both the service name and the sid set. -/
def c9Cfg : WriterConfig := ⟨"svc", "sid1"⟩

/-- C9 counterexample: with both keys set, `Init` logs the condition and stops
    before connecting, but returns nil — the condition is not reported as an
    error to the caller, contrary to the claim. -/
theorem c9Counterexample :
    InitGo c9Cfg none none = ⟨true, false, false, false, none⟩ ∧
    (InitGo c9Cfg none none).returnedError = none :=
  ⟨rfl, rfl⟩

/-- C9 (amended): when both the service name and the sid are non-empty, `Init`
    logs the rejected configuration and returns early — no database
    connection, no session setup, no pipeline — but it returns nil, so the
    caller sees success rather than a fatal startup error. -/
theorem c9BothConfigured (cfg : WriterConfig) (openErr alterErr : Option String)
    (h1 : cfg.serviceName ≠ "") (h2 : cfg.sid ≠ "") :
    InitGo cfg openErr alterErr = ⟨true, false, false, false, none⟩ := by
  simp [InitGo, h1, h2]

/-- C9 witness. -/
theorem c9BothConfiguredWitness :
    InitGo c9Cfg none none = ⟨true, false, false, false, none⟩ :=
  c9BothConfigured c9Cfg none none (by decide) (by decide)

/-! ### Claim C10 -/

/-- C10: a record whose method is none of Insert, Update or Delete falls
    through the dispatch switch: `ProcessData` returns success and enqueues no
    Command. -/
theorem c10UnknownMethod (ref : Nat) (r : GoRecord) (tag : Nat)
    (h : r.method = .mOther tag) : ProcessData ref r = .ok [] := by
  unfold ProcessData
  rw [h]

/-- C10 witness. -/
theorem c10UnknownMethodWitness :
    ProcessData 3 (⟨.mOther 17, "T", "", []⟩ : GoRecord) = .ok [] :=
  c10UnknownMethod 3 ⟨.mOther 17, "T", "", []⟩ 17 rfl

/-! ### Claim C8 -/

/-- A sample command for exercising the channel model. -/
def c8SampleCmd : DBCommand := ⟨0, ⟨.mDelete, "T", "ID", []⟩, "q", []⟩

theorem chanSendList_ok {α : Type} :
    ∀ (xs buf : List α) (cap : Nat), buf.length + xs.length ≤ cap →
      chanSendList ⟨buf, cap⟩ xs = some ⟨buf ++ xs, cap⟩ := by
  intro xs
  induction xs with
  | nil => intro buf cap _; simp [chanSendList]
  | cons a rest ih =>
    intro buf cap h
    have hlt : buf.length < cap := by simp at h; omega
    have hrec := ih (buf ++ [a]) cap (by simp at h ⊢; omega)
    simp only [chanSendList, chanSend, hlt, if_true]
    rw [Option.some_bind, hrec]
    simp

/-- C8 (amended): the mutation queue allocated by `NewWriter` is a single
    bounded FIFO channel of capacity 204800 (not "low thousands"): sending
    appends in arrival order and every successfully sent element stays
    buffered, a send on a full channel blocks the producer without dropping
    anything, and receive takes elements in exactly the enqueue order. -/
theorem c8QueueFifo :
    writerCommandsCap = 204800 ∧
    newWriterCommands.cap = writerCommandsCap ∧
    newWriterCommands.buf = [] ∧
    (∀ xs : List DBCommand, xs.length ≤ writerCommandsCap →
      chanSendList newWriterCommands xs = some ⟨xs, writerCommandsCap⟩) ∧
    (∀ (c : GoChan DBCommand) (a : DBCommand), c.cap ≤ c.buf.length →
      chanSend c a = none) ∧
    (∀ (a : DBCommand) (rest : List DBCommand) (cap : Nat),
      chanRecv ⟨a :: rest, cap⟩ = some (a, ⟨rest, cap⟩)) := by
  refine ⟨rfl, rfl, rfl, fun xs hlen => ?_, fun c a hfull => ?_, fun a rest cap => rfl⟩
  · have := chanSendList_ok xs [] writerCommandsCap (by simpa using hlen)
    simpa [newWriterCommands] using this
  · simp [chanSend, Nat.not_lt.mpr hfull]

/-- C8 counterexample: the channel capacity is 204800, which is not "in the
    low thousands" (not below ten thousand). -/
theorem c8Counterexample :
    writerCommandsCap = 204800 ∧ ¬ writerCommandsCap < 10000 := by
  refine ⟨rfl, ?_⟩
  decide

/-- C8 witness. -/
theorem c8QueueFifoWitness :
    chanSendList newWriterCommands [c8SampleCmd] =
      some ⟨[c8SampleCmd], writerCommandsCap⟩ ∧
    chanSend (⟨List.replicate writerCommandsCap c8SampleCmd,
      writerCommandsCap⟩ : GoChan DBCommand) c8SampleCmd = none :=
  ⟨c8QueueFifo.2.2.2.1 [c8SampleCmd] (by decide),
    c8QueueFifo.2.2.2.2.1 _ c8SampleCmd (by simp)⟩

/-! ### Helper lemmas about the retry loop and the chunk handler -/

/-- The trace of one `processData` run whose `db.Exec` fails `n` times before
    succeeding: each attempt executes the identical recomputed batch, each
    failure is followed by the fixed five-second backoff, and the completions
    fire once per command after the success. -/
def retryTrace (q : String) (args : List GoValue) (refs : List Nat) : Nat → List WEvent
  | 0 => .exec q args :: refs.map .completed
  | n + 1 => .exec q args :: .backoffSeconds 5 :: retryTrace q args refs n

theorem processDataAttempts_some (cmds : List DBCommand) (ok : Nat → Bool) :
    ∀ (fuel i : Nat) (evs : List WEvent),
      processDataAttempts fuel cmds ok i = some evs →
      ∃ n, n < fuel ∧ (∀ m, m < n → ok (i + m) = false) ∧ ok (i + n) = true ∧
        evs = retryTrace (batchQuery cmds) (batchArgs cmds)
          (cmds.map (·.reference)) n := by
  intro fuel
  induction fuel with
  | zero => intro i evs h; exact absurd h (by simp [processDataAttempts])
  | succ fuel ih =>
    intro i evs h
    simp only [processDataAttempts] at h
    by_cases hok : ok i = true
    · rw [if_pos hok] at h
      injection h with h
      refine ⟨0, Nat.succ_pos fuel, fun m hm => absurd hm (Nat.not_lt_zero m),
        by simpa using hok, ?_⟩
      rw [← h]
      simp only [retryTrace, List.map_map]
      rfl
    · rw [if_neg hok] at h
      have hokf : ok i = false := by simpa using hok
      cases hrec : processDataAttempts fuel cmds ok (i + 1) with
      | none => rw [hrec] at h; exact absurd h (by simp)
      | some evsr =>
        rw [hrec] at h
        simp only [Option.map_some'] at h
        injection h with h
        obtain ⟨n, hn, hfail, hsucc, hevs⟩ := ih (i + 1) evsr hrec
        refine ⟨n + 1, Nat.succ_lt_succ hn, ?_, ?_, ?_⟩
        · intro m hm
          cases m with
          | zero => simpa using hokf
          | succ k =>
            have hk : i + (k + 1) = i + 1 + k := by omega
            rw [hk]
            exact hfail k (Nat.lt_of_succ_lt_succ hm)
        · have hk : i + (n + 1) = i + 1 + n := by omega
          rw [hk]
          exact hsucc
        · rw [← h, hevs]
          rfl

theorem processDataAttempts_none (cmds : List DBCommand) (ok : Nat → Bool)
    (hfail : ∀ j, ok j = false) :
    ∀ fuel i, processDataAttempts fuel cmds ok i = none := by
  intro fuel
  induction fuel with
  | zero => intro i; rfl
  | succ fuel ih => intro i; simp [processDataAttempts, hfail i, ih (i + 1)]

@[simp] theorem completedRefs_nil : completedRefs [] = [] := rfl

@[simp] theorem completedRefs_cons_exec (q : String) (a : List GoValue)
    (l : List WEvent) : completedRefs (.exec q a :: l) = completedRefs l := rfl

@[simp] theorem completedRefs_cons_backoff (n : Nat) (l : List WEvent) :
    completedRefs (.backoffSeconds n :: l) = completedRefs l := rfl

@[simp] theorem completedRefs_cons_completed (r : Nat) (l : List WEvent) :
    completedRefs (.completed r :: l) = r :: completedRefs l := rfl

@[simp] theorem completedRefs_append (l1 l2 : List WEvent) :
    completedRefs (l1 ++ l2) = completedRefs l1 ++ completedRefs l2 := by
  simp [completedRefs, List.filterMap_append]

theorem completedRefs_map_completed (refs : List Nat) :
    completedRefs (refs.map .completed) = refs := by
  induction refs with
  | nil => rfl
  | cons r rest ih => simp [ih]

theorem completedRefs_retryTrace (q : String) (a : List GoValue) (refs : List Nat) :
    ∀ n, completedRefs (retryTrace q a refs n) = refs := by
  intro n
  induction n with
  | zero => simp [retryTrace, completedRefs_map_completed]
  | succ n ih => simp [retryTrace, ih]

@[simp] theorem execEvents_nil : execEvents [] = [] := rfl

@[simp] theorem execEvents_cons_exec (q : String) (a : List GoValue)
    (l : List WEvent) : execEvents (.exec q a :: l) = .exec q a :: execEvents l := rfl

@[simp] theorem execEvents_cons_backoff (n : Nat) (l : List WEvent) :
    execEvents (.backoffSeconds n :: l) = execEvents l := rfl

@[simp] theorem execEvents_cons_completed (r : Nat) (l : List WEvent) :
    execEvents (.completed r :: l) = execEvents l := rfl

theorem execEvents_map_completed (refs : List Nat) :
    execEvents (refs.map .completed) = [] := by
  induction refs with
  | nil => rfl
  | cons r rest ih => simp [ih]

theorem execEvents_retryTrace_mem (q : String) (a : List GoValue) (refs : List Nat) :
    ∀ n, ∀ e ∈ execEvents (retryTrace q a refs n), e = .exec q a := by
  intro n
  induction n with
  | zero =>
    intro e he
    simp [retryTrace, execEvents_map_completed] at he
    exact he
  | succ n ih =>
    intro e he
    simp only [retryTrace, execEvents_cons_exec, execEvents_cons_backoff,
      List.mem_cons] at he
    rcases he with he | he
    · exact he
    · exact ih e he

theorem chunkGroupsAux_flatten :
    ∀ (rest : List DBCommand) (cur : String) (acc : List DBCommand),
      (chunkGroupsAux rest cur acc).flatten = acc ++ rest := by
  intro rest
  induction rest with
  | nil =>
    intro cur acc
    by_cases h : acc.isEmpty
    · simp [chunkGroupsAux, h, List.isEmpty_iff.mp h]
    · simp [chunkGroupsAux, h]
  | cons c rest ih =>
    intro cur acc
    by_cases h : c.queryStr == cur
    · simp only [chunkGroupsAux, h, if_true]
      rw [ih]
      simp
    · simp only [chunkGroupsAux, h, Bool.false_eq_true, if_false]
      simp only [List.flatten_cons]
      rw [ih]
      simp

theorem chunkGroups_flatten (chunk : List DBCommand) :
    (chunkGroups chunk).flatten = chunk := by
  cases chunk with
  | nil => rfl
  | cons c rest => simp [chunkGroups, chunkGroupsAux_flatten]

theorem runGroups_completedRefs (ok : Nat → Nat → Bool) (fuel : Nat) :
    ∀ (gs : List (List DBCommand)) (idx : Nat) (evs : List WEvent),
      runGroups ok fuel idx gs = some evs →
      completedRefs evs = gs.flatten.map (·.reference) := by
  intro gs
  induction gs with
  | nil =>
    intro idx evs h
    injection h with h
    rw [← h]
    rfl
  | cons g gs ih =>
    intro idx evs h
    simp only [runGroups] at h
    cases hg : processDataAttempts fuel g (ok idx) 0 with
    | none => rw [hg] at h; exact absurd h (by simp)
    | some evsg =>
      rw [hg] at h
      cases hr : runGroups ok fuel (idx + 1) gs with
      | none => rw [hr] at h; exact absurd h (by simp)
      | some evsr =>
        rw [hr] at h
        simp only [Option.map_some'] at h
        injection h with h
        obtain ⟨n, _, _, _, hevs⟩ := processDataAttempts_some g (ok idx) fuel 0 evsg hg
        rw [← h, completedRefs_append, hevs, completedRefs_retryTrace,
          ih (idx + 1) evsr hr]
        simp

/-! ### Claim C2 -/

/-- C2: whenever a chunk's application terminates successfully, the completion
    handler receives exactly the references of the chunk's commands, once per
    command, in the order the commands were enqueued into the chunk. -/
theorem c2CompletionOrder (chunk : List DBCommand) (ok : Nat → Nat → Bool)
    (fuel : Nat) (evs : List WEvent)
    (h : chunkHandlerRun chunk ok fuel = some evs) :
    completedRefs evs = chunk.map (·.reference) := by
  unfold chunkHandlerRun at h
  have hrefs := runGroups_completedRefs ok fuel (chunkGroups chunk) 0 evs h
  rwa [chunkGroups_flatten] at hrefs

/-- The delete commands used to exercise the chunk handler in the C2
    witness. -/
def c2CmdA : DBCommand :=
  ⟨9, ⟨.mDelete, "T", "ID", [("ID", .vInt 1)]⟩,
    "DELETE FROM T WHERE ID = :primary_val", [("primary_val", .vInt 1)]⟩

def c2CmdB : DBCommand :=
  ⟨4, ⟨.mDelete, "U", "ID", [("ID", .vInt 2)]⟩,
    "DELETE FROM U WHERE ID = :primary_val", [("primary_val", .vInt 2)]⟩

/-- C2 witness. -/
theorem c2CompletionOrderWitness :
    completedRefs
      [WEvent.exec "DELETE FROM T WHERE ID = :primary_val" [.vInt 1],
        .completed 9,
        .exec "DELETE FROM U WHERE ID = :primary_val" [.vInt 2],
        .completed 4] = [c2CmdA, c2CmdB].map (·.reference) :=
  c2CompletionOrder [c2CmdA, c2CmdB] (fun _ _ => true) 1 _ rfl

/-! ### Claim C1 -/

/-- The insert and delete records of the C1 counterexample (two different
    templates in one chunk). -/
def c1InsRec : GoRecord := ⟨.mInsert, "T", "ID", [("ID", .vInt 1), ("NAME", .vStr "A")]⟩

def c1DelRec : GoRecord := ⟨.mDelete, "T", "ID", [("ID", .vInt 2)]⟩

/-- The command compiled from `c1InsRec`. -/
def c1InsCmd : DBCommand :=
  ⟨1, c1InsRec, "INSERT INTO T (\"ID\",\"NAME\") VALUES (:primary_val,:val_1)",
    [("primary_val", .vInt 1), ("val_1", .vStr "A")]⟩

/-- The command compiled from `c1DelRec`. -/
def c1DelCmd : DBCommand :=
  ⟨2, c1DelRec, "DELETE FROM T WHERE ID = :primary_val", [("primary_val", .vInt 2)]⟩

/-- Success oracle of the C1 counterexample: the insert run succeeds at once,
    the delete run fails its first attempt and succeeds on the second. -/
def c1Ok : Nat → Nat → Bool := fun g a => if g == 0 then true else decide (1 ≤ a)

/-- The resulting trace of the two-template chunk. -/
def c1Trace : List WEvent :=
  [.exec "INSERT ALL INTO T (\"ID\",\"NAME\") VALUES (:primary_val,:val_1) SELECT * FROM DUAL"
      [.vInt 1, .vStr "A"],
    .completed 1,
    .exec "DELETE FROM T WHERE ID = :primary_val" [.vInt 2],
    .backoffSeconds 5,
    .exec "DELETE FROM T WHERE ID = :primary_val" [.vInt 2],
    .completed 2]

/-- C1 counterexample: a chunk holding two commands with different templates is
    split into two separately executed and separately retried runs.  The first
    `db.Exec` does not contain the chunk's delete statement, the completion of
    command 1 fires before the failing attempt, and the retried execution
    repeats only the delete run — so the chunk's statements are not applied in
    one transaction and the entire chunk is not retried from the beginning. -/
theorem c1Counterexample :
    ProcessData 1 c1InsRec = .ok [c1InsCmd] ∧
    ProcessData 2 c1DelRec = .ok [c1DelCmd] ∧
    chunkHandlerRun [c1InsCmd, c1DelCmd] c1Ok 3 = some c1Trace ∧
    execEvents c1Trace =
      [.exec "INSERT ALL INTO T (\"ID\",\"NAME\") VALUES (:primary_val,:val_1) SELECT * FROM DUAL"
          [.vInt 1, .vStr "A"],
        .exec "DELETE FROM T WHERE ID = :primary_val" [.vInt 2],
        .exec "DELETE FROM T WHERE ID = :primary_val" [.vInt 2]] ∧
    containsSub
      "INSERT ALL INTO T (\"ID\",\"NAME\") VALUES (:primary_val,:val_1) SELECT * FROM DUAL"
      "DELETE FROM" = false ∧
    completedRefs (c1Trace.take 2) = [1] :=
  ⟨rfl, rfl, rfl, rfl, rfl, rfl⟩

/-- C1 (amended): each maximal same-template run handed to `processData` is
    applied as one atomic `db.Exec` of its recomputed batch; on failure the
    whole run is re-derived and re-executed from the beginning after a fixed
    five-second backoff, indefinitely; completions fire only after the
    success; and `processData` never returns failure — when every attempt
    fails it simply never terminates. -/
theorem c1ApplyRetryPerRun (cmds : List DBCommand) (ok : Nat → Bool) :
    (∀ (fuel i : Nat) (evs : List WEvent),
      processDataAttempts fuel cmds ok i = some evs →
      ∃ n, n < fuel ∧ (∀ m, m < n → ok (i + m) = false) ∧ ok (i + n) = true ∧
        evs = retryTrace (batchQuery cmds) (batchArgs cmds)
          (cmds.map (·.reference)) n) ∧
    ((∀ j, ok j = false) → ∀ fuel i, processDataAttempts fuel cmds ok i = none) :=
  ⟨processDataAttempts_some cmds ok,
    fun hf => processDataAttempts_none cmds ok hf⟩

/-- Success oracle for the C1 witness: fail the first attempt only. -/
def c1WitOk : Nat → Bool := fun a => decide (1 ≤ a)

/-- C1 witness. -/
theorem c1ApplyRetryPerRunWitness :
    ∃ n, n < 3 ∧ (∀ m, m < n → c1WitOk (0 + m) = false) ∧ c1WitOk (0 + n) = true ∧
      ([WEvent.exec "DELETE FROM T WHERE ID = :primary_val" [.vInt 2],
        .backoffSeconds 5,
        .exec "DELETE FROM T WHERE ID = :primary_val" [.vInt 2],
        .completed 2] : List WEvent) =
        retryTrace (batchQuery [c1DelCmd]) (batchArgs [c1DelCmd])
          ([c1DelCmd].map (·.reference)) n :=
  (c1ApplyRetryPerRun [c1DelCmd] c1WitOk).1 3 0 _ rfl

/-! ### Helper lemmas about the row-level semantics -/

theorem applyAsg_eq_find :
    ∀ (asg : List (String × GoValue)) (row : DbRow) (c : String),
      applyAsg row asg c =
        match asg.reverse.find? (fun p => p.1 == c) with
        | some p => some p.2
        | none => row c := by
  intro asg
  induction asg with
  | nil => intro row c; rfl
  | cons a l ih =>
    intro row c
    show applyAsg (setCol row a.1 a.2) l c = _
    rw [ih]
    rw [List.reverse_cons, List.find?_append]
    cases h : l.reverse.find? (fun p => p.1 == c) with
    | some q => rfl
    | none =>
      simp only [Option.none_or]
      by_cases hc : a.1 == c
      · simp only [List.find?_cons, hc]
        show setCol row a.1 a.2 c = some a.2
        have : c = a.1 := (eq_of_beq hc).symm
        simp [setCol, this]
      · have hcb : (a.1 == c) = false := by
          cases hb : a.1 == c
          · rfl
          · exact absurd hb hc
        simp only [List.find?_cons, hcb]
        show setCol row a.1 a.2 c = row c
        have : ¬ c = a.1 := fun he => hc (by rw [he]; exact beq_self_eq_true a.1)
        simp [setCol, this]

theorem applyAsg_notin (row : DbRow) (asg : List (String × GoValue)) (c : String)
    (h : ∀ p ∈ asg, p.1 ≠ c) : applyAsg row asg c = row c := by
  rw [applyAsg_eq_find]
  have hnone : asg.reverse.find? (fun p => p.1 == c) = none := by
    rw [List.find?_eq_none]
    intro p hp
    exact fun hbeq => h p (List.mem_reverse.mp hp) (eq_of_beq hbeq)
  rw [hnone]

theorem applyAsg_idem (row : DbRow) (asg : List (String × GoValue)) :
    applyAsg (applyAsg row asg) asg = applyAsg row asg := by
  funext c
  rw [applyAsg_eq_find asg (applyAsg row asg) c]
  cases h : asg.reverse.find? (fun p => p.1 == c) with
  | some p => rw [applyAsg_eq_find asg row c, h]
  | none => rfl

theorem recAssignments_key_ne (r : GoRecord) :
    ∀ p ∈ recAssignments r, p.1 ≠ r.primaryKey := by
  intro p hp
  simp only [recAssignments, List.mem_filter, Bool.not_eq_true',
    beq_eq_false_iff_ne, ne_eq] at hp
  exact fun he => hp.2 he.symm

@[simp] theorem dbSet_same (db : Db) (t : String) (rows : List DbRow) :
    dbSet db t rows t = rows := by
  simp [dbSet]

theorem dbSet_self (db : Db) (t : String) : dbSet db t (db t) = db := by
  funext t'
  simp only [dbSet]
  split
  · next h => rw [h]
  · rfl

theorem dbSet_dbSet (db : Db) (t : String) (a b : List DbRow) :
    dbSet (dbSet db t a) t b = dbSet db t b := by
  funext t'
  simp only [dbSet]
  split <;> rfl

theorem foldl_insertSem (g : List DBCommand) :
    ∀ db : Db, (∀ c ∈ g, c.record.method = .mInsert) →
      g.foldl (fun db c => insertSem db c.record) db = g.foldl applyCmdRecord db := by
  induction g with
  | nil => intro db _; rfl
  | cons c g' ih =>
    intro db h
    have hc : applyCmdRecord db c = insertSem db c.record := by
      unfold applyCmdRecord
      rw [h c (List.mem_cons_self c g')]
    rw [List.foldl_cons, List.foldl_cons, hc]
    exact ih _ (fun c' hc' => h c' (List.mem_cons_of_mem c hc'))

theorem foldl_other (g : List DBCommand) (tag : Nat) :
    ∀ db : Db, (∀ c ∈ g, c.record.method = .mOther tag) →
      g.foldl applyCmdRecord db = db := by
  induction g with
  | nil => intro db _; rfl
  | cons c g' ih =>
    intro db h
    have hc : applyCmdRecord db c = db := by
      unfold applyCmdRecord
      rw [h c (List.mem_cons_self c g')]
    rw [List.foldl_cons, hc]
    exact ih db (fun c' hc' => h c' (List.mem_cons_of_mem c hc'))

theorem update_group_fold (t pk : String) (asg : List (String × GoValue))
    (hpk : ∀ p ∈ asg, p.1 ≠ pk) :
    ∀ (g : List DBCommand) (db : Db),
      (∀ c ∈ g, c.record.method = .mUpdate ∧ c.record.table = t ∧
        c.record.primaryKey = pk ∧ recAssignments c.record = asg) →
      g.foldl applyCmdRecord db =
        dbSet db t ((db t).map (fun row =>
          if row pk ∈ (updatePks g).map some then applyAsg row asg else row)) := by
  intro g
  induction g with
  | nil =>
    intro db _
    have hmap : ((db t).map (fun row =>
        if row pk ∈ (updatePks ([] : List DBCommand)).map some then
          applyAsg row asg else row)) = db t := by
      simp [updatePks]
    rw [List.foldl_nil, hmap, dbSet_self]
  | cons c g' ih =>
    intro db hall
    obtain ⟨hm, ht, hpkc, hasg⟩ := hall c (List.mem_cons_self c g')
    have hall' : ∀ c' ∈ g', c'.record.method = .mUpdate ∧ c'.record.table = t ∧
        c'.record.primaryKey = pk ∧ recAssignments c'.record = asg :=
      fun c' hc' => hall c' (List.mem_cons_of_mem c hc')
    cases hpkv : recPkValLast c.record with
    | none =>
      have hstep : applyCmdRecord db c = db := by
        unfold applyCmdRecord
        rw [hm]
        unfold updateSem
        rw [hpkv]
      have hpks : updatePks (c :: g') = updatePks g' := by
        simp [updatePks, List.filterMap_cons, hpkv]
      rw [List.foldl_cons, hstep, ih db hall', hpks]
    | some pkv =>
      have hstep : applyCmdRecord db c =
          dbSet db t ((db t).map (fun row =>
            if row pk = some pkv then applyAsg row asg else row)) := by
        unfold applyCmdRecord
        rw [hm]
        unfold updateSem
        rw [hpkv, ht, hpkc, hasg]
      have hpks : updatePks (c :: g') = pkv :: updatePks g' := by
        simp [updatePks, List.filterMap_cons, hpkv]
      rw [List.foldl_cons, hstep, ih _ hall', dbSet_same, dbSet_dbSet,
        List.map_map, hpks]
      have hfun : ((fun row =>
            if row pk ∈ (updatePks g').map some then applyAsg row asg else row) ∘
          (fun row => if row pk = some pkv then applyAsg row asg else row)) =
          (fun row => if row pk ∈ (pkv :: updatePks g').map some then
            applyAsg row asg else row) := by
        funext row
        simp only [Function.comp_apply, List.map_cons, List.mem_cons]
        by_cases h1 : row pk = some pkv
        · rw [if_pos h1]
          have hpres : (applyAsg row asg) pk = row pk := applyAsg_notin row asg pk hpk
          by_cases h2 : row pk ∈ (updatePks g').map some
          · rw [if_pos (by rw [hpres]; exact h2), if_pos (Or.inl h1)]
            exact applyAsg_idem row asg
          · rw [if_neg (by rw [hpres]; exact h2), if_pos (Or.inl h1)]
        · rw [if_neg h1]
          by_cases h2 : row pk ∈ (updatePks g').map some
          · rw [if_pos h2, if_pos (Or.inr h2)]
          · rw [if_neg h2, if_neg (by rintro (h | h); exact h1 h; exact h2 h)]
      rw [hfun]

theorem delete_group_fold (t pk : String) :
    ∀ (g : List DBCommand) (db : Db),
      (∀ c ∈ g, c.record.method = .mDelete ∧ c.record.table = t ∧
        c.record.primaryKey = pk) →
      g.foldl applyCmdRecord db =
        dbSet db t ((db t).filter (fun row =>
          decide (¬ row pk ∈ (deletePks g).map some))) := by
  intro g
  induction g with
  | nil =>
    intro db _
    have hfil : ((db t).filter (fun row =>
        decide (¬ row pk ∈ (deletePks ([] : List DBCommand)).map some))) = db t := by
      simp [deletePks]
    rw [List.foldl_nil, hfil, dbSet_self]
  | cons c g' ih =>
    intro db hall
    obtain ⟨hm, ht, hpkc⟩ := hall c (List.mem_cons_self c g')
    have hall' : ∀ c' ∈ g', c'.record.method = .mDelete ∧ c'.record.table = t ∧
        c'.record.primaryKey = pk :=
      fun c' hc' => hall c' (List.mem_cons_of_mem c hc')
    cases hpkv : recPkValFirst c.record with
    | none =>
      have hstep : applyCmdRecord db c = db := by
        unfold applyCmdRecord
        rw [hm]
        unfold deleteSem
        rw [hpkv]
      have hpks : deletePks (c :: g') = deletePks g' := by
        simp [deletePks, List.filterMap_cons, hpkv]
      rw [List.foldl_cons, hstep, ih db hall', hpks]
    | some pkv =>
      have hstep : applyCmdRecord db c =
          dbSet db t ((db t).filter (fun row =>
            decide (¬ row pk = some pkv))) := by
        unfold applyCmdRecord
        rw [hm]
        unfold deleteSem
        rw [hpkv, ht, hpkc]
      have hpks : deletePks (c :: g') = pkv :: deletePks g' := by
        simp [deletePks, List.filterMap_cons, hpkv]
      rw [List.foldl_cons, hstep, ih _ hall', dbSet_same, dbSet_dbSet, hpks]
      have hfil : ∀ rows : List DbRow,
          (rows.filter (fun row => decide (¬ row pk = some pkv))).filter
            (fun row => decide (¬ row pk ∈ (deletePks g').map some)) =
          rows.filter (fun row =>
            decide (¬ row pk ∈ (pkv :: deletePks g').map some)) := by
        intro rows
        rw [List.filter_filter]
        apply List.filter_congr
        intro row _
        by_cases h1 : row pk = some pkv <;>
          by_cases h2 : row pk ∈ (deletePks g').map some <;> simp [h1, h2]
      rw [hfil (db t)]

theorem applyMergedGroup_eq_fold (g : List DBCommand) (hu : GroupUniform g)
    (db : Db) : applyMergedGroup db g = g.foldl applyCmdRecord db := by
  cases g with
  | nil => rfl
  | cons c g' =>
    have hcmem : c ∈ c :: g' := List.mem_cons_self c g'
    have hg : applyMergedGroup db (c :: g') =
        (match c.record.method with
          | GoMethod.mInsert => (c :: g').foldl (fun db c' => insertSem db c'.record) db
          | GoMethod.mUpdate =>
            dbSet db c.record.table ((db c.record.table).map (fun row =>
              if row c.record.primaryKey ∈ (updatePks (c :: g')).map some then
                applyAsg row (recAssignments c.record)
              else row))
          | GoMethod.mDelete =>
            dbSet db c.record.table ((db c.record.table).filter (fun row =>
              decide (¬ row c.record.primaryKey ∈ (deletePks (c :: g')).map some)))
          | GoMethod.mOther _ => db) := rfl
    cases hm : c.record.method with
    | mInsert =>
      rw [hg, hm]
      exact foldl_insertSem (c :: g') db
        (fun c' hc' => ((hu c hcmem c' hc').1).symm.trans hm)
    | mUpdate =>
      rw [hg, hm]
      refine (update_group_fold c.record.table c.record.primaryKey
        (recAssignments c.record) (recAssignments_key_ne c.record) (c :: g') db ?_).symm
      intro c' hc'
      obtain ⟨h1, h2, h3, h4⟩ := hu c hcmem c' hc'
      exact ⟨h1.symm.trans hm, h2.symm, h3.symm, (h4 hm).symm⟩
    | mDelete =>
      rw [hg, hm]
      refine (delete_group_fold c.record.table c.record.primaryKey (c :: g') db ?_).symm
      intro c' hc'
      obtain ⟨h1, h2, h3, _⟩ := hu c hcmem c' hc'
      exact ⟨h1.symm.trans hm, h2.symm, h3.symm⟩
    | mOther tag =>
      rw [hg, hm]
      exact (foldl_other (c :: g') tag db
        (fun c' hc' => ((hu c hcmem c' hc').1).symm.trans hm)).symm

theorem foldl_groups_congr :
    ∀ (gs : List (List DBCommand)) (db : Db), (∀ g ∈ gs, GroupUniform g) →
      gs.foldl applyMergedGroup db =
        gs.foldl (fun acc g => g.foldl applyCmdRecord acc) db := by
  intro gs
  induction gs with
  | nil => intro db _; rfl
  | cons g gs ih =>
    intro db h
    rw [List.foldl_cons, List.foldl_cons,
      applyMergedGroup_eq_fold g (h g (List.mem_cons_self g gs)) db]
    exact ih _ (fun g' hg' => h g' (List.mem_cons_of_mem g hg'))

/-! ### Claim C3 -/

/-- The two update records whose merged application loses the second SET
    value. -/
def c3RecA : GoRecord := ⟨.mUpdate, "T", "ID", [("ID", .vInt 1), ("NAME", .vStr "A")]⟩

def c3RecB : GoRecord := ⟨.mUpdate, "T", "ID", [("ID", .vInt 2), ("NAME", .vStr "B")]⟩

/-- The command compiled from `c3RecA`. -/
def c3CmdA : DBCommand :=
  ⟨1, c3RecA, "UPDATE T SET \"NAME\" = :val_1 WHERE ID = :primary_val",
    [("primary_val", .vInt 1), ("val_1", .vStr "A")]⟩

/-- The command compiled from `c3RecB`. -/
def c3CmdB : DBCommand :=
  ⟨2, c3RecB, "UPDATE T SET \"NAME\" = :val_1 WHERE ID = :primary_val",
    [("primary_val", .vInt 2), ("val_1", .vStr "B")]⟩

/-- A two-row table T: row ID 1 with NAME "x" and row ID 2 with NAME "y". -/
def c3Db : Db := fun t =>
  if t = "T" then
    [mkRow [("ID", .vInt 1), ("NAME", .vStr "x")],
      mkRow [("ID", .vInt 2), ("NAME", .vStr "y")]]
  else []

/-- C3 counterexample: two consecutive same-template updates with different
    SET values merge into one statement that binds only the first command's
    value — the second command's value "B" does not occur in the merged
    argument list at all, although the command's own statement binds it — so
    the merged application leaves row 2 with NAME "A" while individual
    application gives it NAME "B": the observable outcomes differ. -/
theorem c3Counterexample :
    ProcessData 1 c3RecA = .ok [c3CmdA] ∧
    ProcessData 2 c3RecB = .ok [c3CmdB] ∧
    batchQuery [c3CmdA, c3CmdB] =
      "UPDATE T SET \"NAME\" = :val_1 WHERE ID IN (:primary_val, :primary_val)" ∧
    batchArgs [c3CmdA, c3CmdB] = [.vStr "A", .vInt 1, .vInt 2] ∧
    GoValue.vStr "B" ∉ batchArgs [c3CmdA, c3CmdB] ∧
    GoValue.vStr "B" ∈ (bindNamed c3CmdB.queryStr c3CmdB.args).2 ∧
    mergedApply c3Db [c3CmdA, c3CmdB] ≠ unmergedApply c3Db [c3CmdA, c3CmdB] := by
  refine ⟨rfl, rfl, rfl, rfl, by decide, by decide, ?_⟩
  intro h
  have h2 : ((mergedApply c3Db [c3CmdA, c3CmdB]) "T").map (fun row => row "NAME") =
      ((unmergedApply c3Db [c3CmdA, c3CmdB]) "T").map (fun row => row "NAME") := by
    rw [h]
  have hm : ((mergedApply c3Db [c3CmdA, c3CmdB]) "T").map (fun row => row "NAME") =
      [some (.vStr "A"), some (.vStr "A")] := rfl
  have hun : ((unmergedApply c3Db [c3CmdA, c3CmdB]) "T").map (fun row => row "NAME") =
      [some (.vStr "A"), some (.vStr "B")] := rfl
  rw [hm, hun] at h2
  exact absurd h2 (by decide)

/-- C3 (amended): the merged statements and bound arguments are a pure
    function of the chunk, recomputed identically on every retry attempt; and
    for chunks whose same-template runs are uniform — members agree on method,
    table and key column, and update runs bind identical SET values — applying
    the merged statements yields the same final database state as applying
    every command individually in order.  (The counterexample shows the
    uniformity condition on update values cannot be dropped.) -/
theorem c3MergeEquivalenceUniform (db : Db) (chunk : List DBCommand)
    (hu : ∀ g ∈ chunkGroups chunk, GroupUniform g) :
    mergedApply db chunk = unmergedApply db chunk ∧
    (∀ (g : List DBCommand) (ok : Nat → Bool) (fuel i : Nat) (evs : List WEvent),
      g ∈ chunkGroups chunk →
      processDataAttempts fuel g ok i = some evs →
      ∀ e ∈ execEvents evs, e = .exec (batchQuery g) (batchArgs g)) := by
  constructor
  · unfold mergedApply unmergedApply
    have h1 : chunk.foldl applyCmdRecord db =
        (chunkGroups chunk).flatten.foldl applyCmdRecord db := by
      rw [chunkGroups_flatten]
    rw [h1, List.foldl_flatten]
    exact foldl_groups_congr (chunkGroups chunk) db hu
  · intro g ok fuel i evs _ hsome e he
    obtain ⟨n, _, _, _, hevs⟩ := processDataAttempts_some g ok fuel i evs hsome
    rw [hevs] at he
    exact execEvents_retryTrace_mem (batchQuery g) (batchArgs g)
      (g.map (·.reference)) n e he

/-- A uniform chunk (two deletes on the same key column of tables T and U)
    for the C3 witness. -/
def c3WitChunk : List DBCommand :=
  [⟨1, ⟨.mDelete, "T", "ID", [("ID", .vInt 1)]⟩,
      "DELETE FROM T WHERE ID = :primary_val", [("primary_val", .vInt 1)]⟩,
    ⟨2, ⟨.mDelete, "T", "ID", [("ID", .vInt 2)]⟩,
      "DELETE FROM T WHERE ID = :primary_val", [("primary_val", .vInt 2)]⟩]

/-- C3 witness. -/
theorem c3MergeEquivalenceUniformWitness :
    mergedApply c3Db c3WitChunk = unmergedApply c3Db c3WitChunk :=
  (c3MergeEquivalenceUniform c3Db c3WitChunk (by decide)).1

end GravityOracle
